import Mathlib

/-!
Verification of the in-process deferred/immediate task execution library:
a time wheel scheduler (src/dispatch/test.hpp, with src/dispatch/timewheel.hpp
as a non-compiling draft), a fixed thread pool (src/concurrent/threadpool.hpp)
and blocking queues (src/tp/blockingqueue.hpp, src/concurrent/blockingqueue.hpp).

Callbacks (std::function<void()>) are represented by abstract numeric tokens;
"the task runs" is modelled as its token appearing in the list of callbacks
invoked by a tick.
-/

/-- Mirrors struct TimerEntry of src/dispatch/test.hpp (lines 36-40):
timer id, remaining rotation count, callback (as a numeric token). -/
structure TimerEntry where
  id : Nat
  rotation : Nat
  cb : Nat
deriving DecidableEq

/-- Mirrors struct IdMeta of src/dispatch/test.hpp (line 42): the registry
value, the slot index and the rotation recorded at insertion time. -/
structure IdMeta where
  slot : Nat
  rotation : Nat
deriving DecidableEq

/-- State of class TimeWheel of src/dispatch/test.hpp: tick_ms_, wheel_size_,
slots_, current_slot_, id_map_ (as an association list, keys unique in every
reachable state), next_id_. -/
structure TimeWheel where
  tick_ms : Nat
  wheel_size : Nat
  slots : List (List TimerEntry)
  current_slot : Nat
  id_map : List (Nat × IdMeta)
  next_id : Nat
deriving DecidableEq

/-- The TimeWheel constructor (src/dispatch/test.hpp lines 61-67). -/
def mkTimeWheel (tick_ms wheel_size : Nat) : TimeWheel :=
  ⟨tick_ms, wheel_size, List.replicate wheel_size [], 0, [], 1⟩

/-- id_map_.find(id) of std::unordered_map. -/
def findMeta : List (Nat × IdMeta) → Nat → Option IdMeta
  | [], _ => none
  | (k, v) :: rest, id => if k = id then some v else findMeta rest id

/-- id_map_[k] = v of std::unordered_map: overwrite the entry with key k if
present, otherwise add a new entry. -/
def mapInsert (m : List (Nat × IdMeta)) (k : Nat) (v : IdMeta) :
    List (Nat × IdMeta) :=
  if m.any (fun p => p.1 = k) then
    m.map (fun p => if p.1 = k then (k, v) else p)
  else m ++ [(k, v)]

/-- id_map_.erase(k) of std::unordered_map (keys are unique in every state the
program builds, so removing every entry with key k removes the one entry). -/
def mapErase (m : List (Nat × IdMeta)) (k : Nat) : List (Nat × IdMeta) :=
  m.filter (fun p => ¬ k = p.1)

/-- TimeWheel::addTimer (src/dispatch/test.hpp lines 89-110). A null callback
is cb = none and returns id 0 without touching the wheel. Otherwise the delay
is floored to one tick, ticks = ceil(delay / tick_ms), rotation and slot are
computed, the entry is pushed at the back of slots_[slot] and recorded in
id_map_, and the fresh id (next_id_.fetch_add(1)) is returned. -/
def TimeWheel.addTimer (w : TimeWheel) (delay_ms : Nat) (cb : Option Nat) :
    TimeWheel × Nat :=
  match cb with
  | none => (w, 0)
  | some c =>
    let d := if delay_ms < w.tick_ms then w.tick_ms else delay_ms
    let ticks := (d + w.tick_ms - 1) / w.tick_ms
    let rotation := ticks / w.wheel_size
    let slot := (w.current_slot + ticks % w.wheel_size) % w.wheel_size
    let entry : TimerEntry := ⟨w.next_id, rotation, c⟩
    ({ w with
        slots := w.slots.set slot (w.slots.getD slot [] ++ [entry])
        id_map := mapInsert w.id_map entry.id ⟨slot, rotation⟩
        next_id := w.next_id + 1 },
      entry.id)

/-- The vec.erase(vit) step of TimeWheel::cancelTimer: remove the first entry
whose id and rotation both match (the loop of lines 121-127). -/
def eraseFirst : List TimerEntry → Nat → Nat → List TimerEntry
  | [], _, _ => []
  | e :: rest, id, rot =>
    if e.id = id ∧ e.rotation = rot then rest
    else e :: eraseFirst rest id rot

/-- TimeWheel::cancelTimer (src/dispatch/test.hpp lines 113-129): id 0 is
rejected; the registry is consulted; the slot vector is scanned for an entry
with the recorded id and the rotation recorded at insertion; only on a match
are the entry and the registry record removed and true returned. -/
def TimeWheel.cancelTimer (w : TimeWheel) (id : Nat) : TimeWheel × Bool :=
  if id = 0 then (w, false)
  else
    match findMeta w.id_map id with
    | none => (w, false)
    | some meta =>
      let vec := w.slots.getD meta.slot []
      if vec.any (fun e => e.id = id ∧ e.rotation = meta.rotation) then
        ({ w with
            slots := w.slots.set meta.slot (eraseFirst vec id meta.rotation)
            id_map := mapErase w.id_map id },
          true)
      else (w, false)

/-- The while loop over the current bucket in TimeWheel::tick (lines 150-161):
front to back, an entry with rotation 0 is collected (second component, the
to_run list) and an entry with positive rotation is kept with its rotation
decremented in place (first component), both in their original order. -/
def processBucket : List TimerEntry → List TimerEntry × List TimerEntry
  | [] => ([], [])
  | e :: rest =>
    let kf := processBucket rest
    if e.rotation = 0 then (kf.1, e :: kf.2)
    else (⟨e.id, e.rotation - 1, e.cb⟩ :: kf.1, kf.2)

/-- TimeWheel::tick (src/dispatch/test.hpp lines 142-171). Under the lock the
current bucket is split, every collected entry's id is erased from id_map_,
and current_slot_ advances by one modulo wheel_size_; the list of collected
callbacks (run after the lock is released) is returned. -/
def TimeWheel.tick (w : TimeWheel) : TimeWheel × List Nat :=
  let bucket := w.slots.getD w.current_slot []
  let kf := processBucket bucket
  let m := kf.2.foldl (fun m e => mapErase m e.id) w.id_map
  ({ w with
      slots := w.slots.set w.current_slot kf.1
      id_map := m
      current_slot := (w.current_slot + 1) % w.wheel_size },
    kf.2.map (fun e => e.cb))

/-- How an expired callback leaves the wheel: inlineRun models the clock
thread invoking it directly (the loop for (auto and f : to_run) f(); of
src/dispatch/test.hpp lines 168-170); submit models a hand-off to the worker
pool (core->Exec(task) in tickerfunc of src/dispatch/timewheel.hpp line 131). -/
inductive Event where
  | inlineRun (cb : Nat)
  | submit (cb : Nat)
deriving DecidableEq

/-- True for a pool hand-off event. -/
def Event.isSubmit : Event → Bool
  | .submit _ => true
  | .inlineRun _ => false

/-- Dispatch events of one tick of src/dispatch/test.hpp: after the lock is
released, the clock thread invokes every collected callback directly. -/
def TimeWheel.tickEvents (w : TimeWheel) : List Event :=
  (w.tick).2.map Event.inlineRun

/-- Iterate tick n times, concatenating the callbacks run at each tick. -/
def TimeWheel.tickN : TimeWheel → Nat → TimeWheel × List Nat
  | w, 0 => (w, [])
  | w, n + 1 =>
    let wf := w.tick
    let rest := TimeWheel.tickN wf.1 n
    (rest.1, wf.2 ++ rest.2)

/-- Claim C1, evaluated at a failing input. TimeWheel(tick_ms 100, 2 slots);
addTimer(500) returns id 1 and places entry (rotation 2, slot 1); after two
ticks nothing has fired, but the bucket entry's rotation was decremented to 1
while id_map_ still records rotation 2, so cancelTimer(1) - called strictly
before the expiry tick - finds no matching entry and returns false, and four
further ticks execute the callback (token 7) anyway. The claim (and the
function's own comment, "Returns true if removed, false if not found or
already fired") requires true and no execution here. -/
theorem C1_cancel_after_rotation_decrement_returns_false_and_timer_fires :
    ((mkTimeWheel 100 2).addTimer 500 (some 7)).2 = 1 ∧
    (TimeWheel.tickN ((mkTimeWheel 100 2).addTimer 500 (some 7)).1 2).2 = [] ∧
    ((TimeWheel.tickN ((mkTimeWheel 100 2).addTimer 500 (some 7)).1 2).1.cancelTimer
        1).2 = false ∧
    (TimeWheel.tickN
        ((TimeWheel.tickN ((mkTimeWheel 100 2).addTimer 500 (some 7)).1
              2).1.cancelTimer 1).1 4).2 = [7] := by
  decide

/-- Lifecycle flags of TimeWheel::start / TimeWheel::stop
(src/dispatch/test.hpp lines 74-85): running_ is toggled with
compare_exchange_strong; a successful start CAS spawns the clock thread
(threads counts spawns), a successful stop CAS joins it (joins counts joins). -/
structure WheelCtl where
  running : Bool
  threads : Nat
  joins : Nat
deriving DecidableEq

/-- TimeWheel::start: CAS running_ from false to true; only on success is the
clock thread spawned. -/
def WheelCtl.start (c : WheelCtl) : WheelCtl :=
  if c.running then c else { c with running := true, threads := c.threads + 1 }

/-- TimeWheel::stop: CAS running_ from true to false; only on success is the
clock thread joined. -/
def WheelCtl.stop (c : WheelCtl) : WheelCtl :=
  if c.running then { c with running := false, joins := c.joins + 1 } else c

/-- Result slot of a task (the shared state behind the std::future returned
by FixedThreadPool::Exec): either a stored return value or a captured error. -/
inductive Outcome (α : Type) where
  | value (a : α)
  | failed (e : String)
deriving DecidableEq

/-- Invoking a packaged task (std::packaged_task): the callable's return value
is stored, and an error raised by the callable is captured into the shared
state instead of propagating to the invoking thread. A callable is modelled by
what its invocation does: Except.ok a returns a, Except.error e raises e. -/
def runTask {α : Type} : Except String α → Outcome α
  | .ok a => .value a
  | .error e => .failed e

/-- State of class FixedThreadPool of src/concurrent/threadpool.hpp: the
running_ flag and the tasks queue (std::queue, front at the head). -/
structure FixedThreadPool (α : Type) where
  running : Bool
  tasks : List (Except String α)

/-- What FixedThreadPool::Exec hands back: on a stopped pool, a future already
holding a default-constructed value (promise.set_value(return_type ())); on a
running pool, a future tied to the task just queued at position idx. -/
inductive ExecResult (α : Type) where
  | closedDefault (a : α)
  | queued (idx : Nat)
deriving DecidableEq

/-- FixedThreadPool::Exec (src/concurrent/threadpool.hpp lines 100-132): if
running_ is false, print to stderr and return a future holding return_type ()
without enqueuing; otherwise package the task, append it to the queue, notify
one worker and return its future. -/
def FixedThreadPool.Exec {α : Type} [Inhabited α] (p : FixedThreadPool α)
    (fn : Except String α) : FixedThreadPool α × ExecResult α :=
  if p.running then
    ({ p with tasks := p.tasks ++ [fn] }, .queued p.tasks.length)
  else (p, .closedDefault default)

/-- The value readable from the returned future at the moment Exec returns:
on the closed path the promise was already fulfilled with the default value;
a queued task's future is still pending. -/
def ExecResult.immediateOutcome {α : Type} : ExecResult α → Option (Outcome α)
  | .closedDefault a => some (.value a)
  | .queued _ => none

/-- True when an outcome is a captured error. -/
def Outcome.isFailed {α : Type} : Outcome α → Bool
  | .failed _ => true
  | .value _ => false

/-- The FixedThreadPool destructor's signalling step (lines 79-91): set
running_ to false and notify_all; the queue contents are untouched (the
threads are then joined). -/
def FixedThreadPool.shutdown {α : Type} (p : FixedThreadPool α) :
    FixedThreadPool α :=
  { p with running := false }

/-- Result of one dequeue attempt against the pool's inline task queue. -/
inductive DequeueResult (β : Type) where
  | blocked
  | closed
  | item (t : β) (rest : List β)
deriving DecidableEq

/-- The dequeue step of FixedThreadPool::threadfunc (lines 140-146): the
worker waits on cond until running_ is false or the queue is non-empty
(blocked exactly while running with an empty queue); once woken it first
checks running_ and breaks if the pool stopped (closed), else takes the
front of the queue (the oldest item) and pops it. -/
def dequeue {β : Type} (running : Bool) (tasks : List β) : DequeueResult β :=
  if running then
    match tasks with
    | [] => .blocked
    | t :: rest => .item t rest
  else .closed

/-- Result of one iteration of a worker thread's loop. -/
inductive StepResult (α : Type) where
  | exit
  | blocked
  | ran (o : Outcome α) (rest : List (Except String α))

/-- One iteration of FixedThreadPool::threadfunc (lines 136-151): dequeue;
break on a stopped pool; otherwise invoke the task (whose value or error is
captured into its future) and loop with the remaining queue. -/
def FixedThreadPool.workerStep {α : Type} (p : FixedThreadPool α) :
    StepResult α :=
  match dequeue p.running p.tasks with
  | .closed => .exit
  | .blocked => .blocked
  | .item t rest => .ran (runTask t) rest

/-- BlockingQueue::push of src/tp/blockingqueue.hpp (lines 32-36): append at
the back. -/
def tpPush {β : Type} (q : List β) (x : β) : List β := q ++ [x]

/-- The cv.wait predicate of BlockingQueue::pop of src/tp/blockingqueue.hpp
(line 40): the waiter is released only when the queue is non-empty; the class
has no closed state, so this predicate is the only wake condition. -/
def tpPopReady {β : Type} (q : List β) : Bool := !q.isEmpty

/-- BlockingQueue::pop of src/tp/blockingqueue.hpp (lines 38-44), once the
wait predicate holds: take queue.front() and erase the first element; none
models a still-blocked waiter. -/
def tpPop {β : Type} (q : List β) : Option (β × List β) :=
  match q with
  | [] => none
  | x :: rest => some (x, rest)

/-- Helper: getD after set at the same, in-range index. -/
theorem getD_set_self {γ : Type} :
    ∀ (l : List γ) (i : Nat) (v d : γ), i < l.length →
      (l.set i v).getD i d = v := by
  intro l
  induction l with
  | nil => intro i v d h; simp at h
  | cons a t ih =>
    intro i v d h
    cases i with
    | zero => rfl
    | succ k => simpa using ih k v d (by simpa using h)

/-- Helper: getD after set at a different index. -/
theorem getD_set_ne {γ : Type} :
    ∀ (l : List γ) (i j : Nat) (v d : γ), ¬ i = j →
      (l.set i v).getD j d = l.getD j d := by
  intro l
  induction l with
  | nil => intro i j v d _; simp
  | cons a t ih =>
    intro i j v d hij
    cases i with
    | zero =>
      cases j with
      | zero => exact absurd rfl hij
      | succ jk => simp
    | succ ik =>
      cases j with
      | zero => simp
      | succ jk => simpa using ih ik jk v d (fun h => hij (by omega))

/-- Helper: the kept part of a processed bucket is the positive-rotation
entries, in order, with rotations decremented. -/
theorem processBucket_fst :
    ∀ l : List TimerEntry,
      (processBucket l).1 = (l.filter (fun e => ¬ e.rotation = 0)).map
        (fun e => ⟨e.id, e.rotation - 1, e.cb⟩) := by
  intro l
  induction l with
  | nil => rfl
  | cons e rest ih =>
    by_cases h : e.rotation = 0 <;> simp [processBucket, h, ih]

/-- Helper: the collected part of a processed bucket is the rotation-zero
entries, in order. -/
theorem processBucket_snd :
    ∀ l : List TimerEntry,
      (processBucket l).2 = l.filter (fun e => e.rotation = 0) := by
  intro l
  induction l with
  | nil => rfl
  | cons e rest ih =>
    by_cases h : e.rotation = 0 <;> simp [processBucket, h, ih]

/-- Helper: erasing every collected id from the registry, one foldl step per
entry, equals one pass keeping the records whose key no collected entry has. -/
theorem foldl_mapErase (fired : List TimerEntry) :
    ∀ m : List (Nat × IdMeta),
      fired.foldl (fun m e => mapErase m e.id) m
        = m.filter (fun p => fired.all (fun e => ¬ e.id = p.1)) := by
  induction fired with
  | nil => intro m; simp
  | cons e rest ih =>
    intro m
    rw [List.foldl_cons, ih]
    simp only [mapErase, List.filter_filter, List.all_cons]
    apply List.filter_congr
    intro p _
    simp [Bool.and_comm]

/-- A wheel state whose wheel_size field equals the length of its slot list,
as every wheel the constructor builds has. -/
def wheelOf (t : Nat) (ss : List (List TimerEntry)) (cur : Nat)
    (m : List (Nat × IdMeta)) (n : Nat) : TimeWheel :=
  ⟨t, ss.length, ss, cur, m, n⟩

/-- Claim C3, counterexample: a wheel with one due entry (rotation 0, callback
token 7) in the current slot. The tick's dispatch events are a direct
invocation by the clock thread; no event is a worker pool submission, though
the ready list is nonempty. This refutes the claim that each ready task is
handed to the Worker Pool via Submit: src/dispatch/test.hpp has no pool and
runs callbacks inline on the clock thread (outside the lock). -/
theorem C3_counterexample_expired_task_not_submitted_to_pool :
    TimeWheel.tickEvents ⟨100, 1, [[⟨1, 0, 7⟩]], 0, [(1, ⟨0, 0⟩)], 2⟩
      = [Event.inlineRun 7] ∧
    (TimeWheel.tickEvents ⟨100, 1, [[⟨1, 0, 7⟩]], 0, [(1, ⟨0, 0⟩)], 2⟩).filter
        Event.isSubmit = [] ∧
    (TimeWheel.tick ⟨100, 1, [[⟨1, 0, 7⟩]], 0, [(1, ⟨0, 0⟩)], 2⟩).2 = [7] := by
  refine ⟨?_, ?_, ?_⟩ <;> decide

/-- Claim C3, amended: on every tick of the wheel of src/dispatch/test.hpp,
under the lock, the rotation-zero entries of the current slot are removed from
the slot and the registry and collected (in FIFO order) into the ready list,
the remaining entries have their rotation decremented in place, other slots
are untouched, and current_slot advances by exactly one modulo the slot
count; then, after the lock is released, each ready callback is executed
directly by the clock thread (an inlineRun event) - not handed to a worker
pool via Submit. -/
theorem C3_amended_tick_extract_decrement_advance_inline_dispatch (t : Nat)
    (ss : List (List TimerEntry)) (cur : Nat) (m : List (Nat × IdMeta))
    (n : Nat) :
    (TimeWheel.tick (wheelOf t ss cur m n)).2
      = ((ss.getD cur []).filter (fun e => e.rotation = 0)).map
          (fun e => e.cb) ∧
    (TimeWheel.tick (wheelOf t ss cur m n)).1.slots.getD cur []
      = ((ss.getD cur []).filter (fun e => ¬ e.rotation = 0)).map
          (fun e => ⟨e.id, e.rotation - 1, e.cb⟩) ∧
    (TimeWheel.tick (wheelOf t ss cur m n)).1.id_map
      = m.filter (fun p =>
          ((ss.getD cur []).filter (fun e => e.rotation = 0)).all
            (fun e => ¬ e.id = p.1)) ∧
    (TimeWheel.tick (wheelOf t ss cur m n)).1.current_slot
      = (cur + 1) % ss.length ∧
    (∀ j, ¬ j = cur →
      (TimeWheel.tick (wheelOf t ss cur m n)).1.slots.getD j []
        = ss.getD j []) ∧
    TimeWheel.tickEvents (wheelOf t ss cur m n)
      = ((TimeWheel.tick (wheelOf t ss cur m n)).2).map Event.inlineRun ∧
    (TimeWheel.tickEvents (wheelOf t ss cur m n)).all
      (fun ev => !ev.isSubmit) = true := by
  refine ⟨?_, ?_, ?_, rfl, ?_, rfl, ?_⟩
  · show ((processBucket ((ss.getD cur []))).2).map _ = _
    rw [processBucket_snd]
  · by_cases h : cur < ss.length
    · show (ss.set cur (processBucket (ss.getD cur [])).1).getD cur [] = _
      rw [getD_set_self _ _ _ _ h, processBucket_fst]
    · have hle : ss.length ≤ cur := Nat.le_of_not_lt h
      show (ss.set cur (processBucket (ss.getD cur [])).1).getD cur [] = _
      rw [List.set_eq_of_length_le hle]
      simp [List.getD_eq_getElem?_getD, List.getElem?_eq_none hle]
  · show (processBucket (ss.getD cur [])).2.foldl _ m = _
    rw [foldl_mapErase, processBucket_snd]
  · intro j hj
    show (ss.set cur (processBucket (ss.getD cur [])).1).getD j [] = _
    exact getD_set_ne _ _ _ _ _ (fun h => hj h.symm)
  · show ((TimeWheel.tick (wheelOf t ss cur m n)).2.map Event.inlineRun).all _
      = true
    simp [Event.isSubmit]

/-- Claim C10: TimeWheel::start and TimeWheel::stop (src/dispatch/test.hpp
lines 74-85) are idempotent. start on an already running wheel changes
nothing (in particular spawns no second clock thread), stop on a stopped
wheel changes nothing (no second join); each toggles running_ at most once
via compare_exchange_strong. -/
theorem C10_start_stop_idempotent (c : WheelCtl) :
    WheelCtl.start (WheelCtl.start c) = WheelCtl.start c ∧
    WheelCtl.stop (WheelCtl.stop c) = WheelCtl.stop c ∧
    (WheelCtl.start c).running = true ∧
    (WheelCtl.stop c).running = false ∧
    WheelCtl.start { c with running := true } = { c with running := true } ∧
    WheelCtl.stop { c with running := false } = { c with running := false } ∧
    (WheelCtl.start (WheelCtl.start c)).threads = (WheelCtl.start c).threads ∧
    (WheelCtl.stop (WheelCtl.stop c)).joins = (WheelCtl.stop c).joins := by
  by_cases h : c.running <;>
    simp [WheelCtl.start, WheelCtl.stop, h]

/-- Claim C5, counterexample: Exec on a stopped FixedThreadPool (Nat-valued
tasks) does not enqueue, but the future it returns is already fulfilled with
the default value 0 - an ordinary value, not a PoolClosed error. This refutes
the claim that the returned handle reports an error: the code's own comment
says "return default zero value when thread pool is not running". -/
theorem C5_counterexample_closed_pool_handle_holds_default_value :
    (FixedThreadPool.Exec (⟨false, []⟩ : FixedThreadPool Nat)
        (Except.ok 5)).2 = ExecResult.closedDefault 0 ∧
    ((FixedThreadPool.Exec (⟨false, []⟩ : FixedThreadPool Nat)
        (Except.ok 5)).2).immediateOutcome = some (Outcome.value 0) ∧
    (((FixedThreadPool.Exec (⟨false, []⟩ : FixedThreadPool Nat)
        (Except.ok 5)).2).immediateOutcome.map Outcome.isFailed)
      = some false ∧
    (FixedThreadPool.Exec (⟨false, []⟩ : FixedThreadPool Nat)
        (Except.ok 5)).1.tasks = [] :=
  ⟨rfl, rfl, rfl, rfl⟩

/-- Claim C5, amended: after the pool has stopped running, every Exec call
does not enqueue the task and returns synchronously a future already holding
a default-constructed value (the failure is only logged to stderr); the
handle never reports an error. -/
theorem C5_amended_closed_pool_no_enqueue_default_handle {α : Type}
    [Inhabited α] (ts : List (Except String α)) (fn : Except String α) :
    FixedThreadPool.Exec (⟨false, ts⟩ : FixedThreadPool α) fn
      = (⟨false, ts⟩, ExecResult.closedDefault default) ∧
    (ExecResult.closedDefault (default : α)).immediateOutcome
      = some (Outcome.value default) ∧
    Outcome.isFailed (Outcome.value (default : α)) = false :=
  ⟨rfl, rfl, rfl⟩

/-- Claim C6, counterexample: a running pool with one queued task. The
destructor (the only shutdown) sets running_ to false and wakes the workers;
a woken worker checks running_ first and exits immediately, so the queued
task is still in the queue and never executed; its future never completes.
This refutes the claim that graceful shutdown lets every queued task run to
completion before joining. -/
theorem C6_counterexample_shutdown_abandons_queued_task :
    (FixedThreadPool.shutdown
        (⟨true, [Except.ok 5]⟩ : FixedThreadPool Nat)).running = false ∧
    (FixedThreadPool.shutdown
        (⟨true, [Except.ok 5]⟩ : FixedThreadPool Nat)).tasks
      = [Except.ok 5] ∧
    FixedThreadPool.workerStep
        (FixedThreadPool.shutdown (⟨true, [Except.ok 5]⟩ : FixedThreadPool Nat))
      = StepResult.exit :=
  ⟨rfl, rfl, rfl⟩

/-- Claim C6, amended: the destructor of FixedThreadPool stops accepting
submissions (running_ := false) and leaves the queue as it is; every worker,
at its next dequeue point, observes the stopped flag and exits without
draining the queue (a task already being executed finishes first, but
queued-not-started tasks are never run); the threads are then joined.
After shutdown Exec no longer enqueues. -/
theorem C6_amended_shutdown_stops_workers_without_draining {α : Type}
    [Inhabited α] (p : FixedThreadPool α) (fn : Except String α) :
    (p.shutdown).running = false ∧
    (p.shutdown).tasks = p.tasks ∧
    p.shutdown.workerStep = StepResult.exit ∧
    (p.shutdown.Exec fn).1 = p.shutdown :=
  ⟨rfl, rfl, rfl, rfl⟩

/-- Claim C7: a submitted callable that raises an error has the error
captured into its task's result slot (the future observed by the caller),
and the worker that executed it continues with the rest of the queue; no
task outcome makes a running worker exit its loop - only the shutdown
signal (running_ = false) does. -/
theorem C7_task_failure_captured_and_worker_survives {α : Type} (e : String)
    (rest : List (Except String α)) :
    runTask (Except.error e : Except String α) = Outcome.failed e ∧
    Outcome.isFailed (runTask (Except.error e : Except String α)) = true ∧
    FixedThreadPool.workerStep
        (⟨true, Except.error e :: rest⟩ : FixedThreadPool α)
      = StepResult.ran (Outcome.failed e) rest ∧
    (∀ ts : List (Except String α),
      ¬ FixedThreadPool.workerStep (⟨true, ts⟩ : FixedThreadPool α)
          = StepResult.exit) := by
  refine ⟨rfl, rfl, rfl, ?_⟩
  intro ts
  cases ts <;> simp [FixedThreadPool.workerStep, dequeue]

/-- Claim C8, counterexample: BlockingQueue::pop of src/tp/blockingqueue.hpp
(the cited Task Queue code) waits on the sole predicate "queue non-empty" and
the class has no closed state at all: a waiter blocked on an empty queue is
never released, so no blocked waiter can ever return a closed signal. -/
theorem C8_counterexample_tp_queue_has_no_closed_wakeup :
    tpPopReady ([] : List Nat) = false ∧
    tpPop ([] : List Nat) = none ∧
    tpPopReady ([3] : List Nat) = true :=
  ⟨rfl, rfl, rfl⟩

/-- Claim C8, amended: the Task Queue the Worker Pool actually owns (the
inline queue of FixedThreadPool::threadfunc) satisfies the contract: a waiter
is blocked exactly while the pool runs with an empty queue; once the pool is
closed every woken waiter gets the closed signal rather than an item; a pop
on a running non-empty queue returns the oldest item (FIFO; push appends at
the back). The standalone BlockingQueue of src/tp/blockingqueue.hpp is FIFO
but has no closed state. -/
theorem C8_amended_pool_queue_closed_signal_and_fifo {β : Type}
    (ts : List β) (x y : β) (rest q : List β) :
    dequeue false ts = DequeueResult.closed ∧
    dequeue true ([] : List β) = DequeueResult.blocked ∧
    dequeue true (x :: rest) = DequeueResult.item x rest ∧
    tpPop (x :: rest) = some (x, rest) ∧
    tpPush q y = q ++ [y] :=
  ⟨rfl, rfl, rfl, rfl, rfl⟩

/-- Claim C2: for every delay d and configuration with tickDuration = tt + 1
(> 0) and slotCount = (s0 :: ss).length (> 0), addTimer places the new entry
as specified: ticks is the ceiling of the (clamped) delay over the tick
duration - characterized as the least k with tickDuration * k at least
max d tickDuration, which encodes both the clamp of a sub-tick delay to one
tick and ceil(delay / tickDuration) - rotation = ticks / slotCount,
targetSlot = (currentSlot + ticks mod slotCount) mod slotCount, and the new
entry (fresh id, rotation, callback) is appended at the tail of
slots[targetSlot], other slots untouched. -/
theorem C2_addTimer_placement (tt : Nat) (s0 : List TimerEntry)
    (ss : List (List TimerEntry)) (cur : Nat) (m : List (Nat × IdMeta))
    (n d c : Nat) :
    ∃ ticks rotation targetSlot,
      (∀ k, ticks ≤ k ↔ max d (tt + 1) ≤ (tt + 1) * k) ∧
      rotation = ticks / (s0 :: ss).length ∧
      targetSlot = (cur + ticks % (s0 :: ss).length) % (s0 :: ss).length ∧
      targetSlot < (s0 :: ss).length ∧
      ((wheelOf (tt + 1) (s0 :: ss) cur m n).addTimer d (some c)).1.slots.getD
          targetSlot []
        = (s0 :: ss).getD targetSlot [] ++ [⟨n, rotation, c⟩] ∧
      (∀ j, ¬ j = targetSlot →
        ((wheelOf (tt + 1) (s0 :: ss) cur m n).addTimer d (some c)).1.slots.getD
            j [] = (s0 :: ss).getD j []) ∧
      ((wheelOf (tt + 1) (s0 :: ss) cur m n).addTimer d (some c)).2 = n := by
  refine ⟨((if d < tt + 1 then tt + 1 else d) + (tt + 1) - 1) / (tt + 1),
    _, _, ?_, rfl, rfl, ?_, ?_, ?_, rfl⟩
  · intro k
    rw [Nat.div_le_iff_le_mul_add_pred (Nat.succ_pos tt), Nat.max_def]
    generalize (tt + 1) * k = X
    split_ifs <;> omega
  · exact Nat.mod_lt _ (Nat.succ_pos _)
  · exact getD_set_self _ _ _ _ (Nat.mod_lt _ (Nat.succ_pos _))
  · intro j hj
    exact getD_set_ne _ _ _ _ _ (fun h => hj h.symm)

/-- All timer ids physically present across the slots, in slot-then-position
order. -/
def slotIds : List (List TimerEntry) → List Nat
  | [] => []
  | s :: rest => s.map (fun e => e.id) ++ slotIds rest

/-- The keys of the registry. -/
def keyList (m : List (Nat × IdMeta)) : List Nat := m.map Prod.fst

/-- Helper: the number of ids across the slots is the total entry count. -/
theorem slotIds_length :
    ∀ ss : List (List TimerEntry),
      (slotIds ss).length = (ss.map List.length).sum := by
  intro ss
  induction ss with
  | nil => rfl
  | cons s rest ih => simp [slotIds, ih]

/-- Helper: replacing slot i exchanges its ids for the new ids, up to
permutation. -/
theorem slotIds_set_perm :
    ∀ (ss : List (List TimerEntry)) (i : Nat) (v : List TimerEntry),
      i < ss.length →
      List.Perm (slotIds (ss.set i v) ++ (ss.getD i []).map (fun e => e.id))
        (slotIds ss ++ v.map (fun e => e.id)) := by
  intro ss
  induction ss with
  | nil => intro i v h; simp at h
  | cons s rest ih =>
    intro i v h
    cases i with
    | zero =>
      simp only [List.set_cons_zero, slotIds, List.getD_cons_zero]
      rw [List.append_assoc, List.append_assoc]
      exact ((List.Perm.append_left _ List.perm_append_comm).trans
        (List.perm_append_comm_assoc _ _ _)).trans
        (List.Perm.append_left _ List.perm_append_comm)
    | succ k =>
      simp only [List.set_cons_succ, slotIds, List.getD_cons_succ]
      rw [List.append_assoc, List.append_assoc]
      exact List.Perm.append_left _ (ih k v (by simpa using h))

/-- Helper: the ids of any one slot form a sublist of all slot ids. -/
theorem getD_map_sublist :
    ∀ (ss : List (List TimerEntry)) (i : Nat),
      ((ss.getD i []).map (fun e => e.id)).Sublist (slotIds ss) := by
  intro ss
  induction ss with
  | nil => intro i; simp [slotIds]
  | cons s rest ih =>
    intro i
    cases i with
    | zero =>
      simpa only [List.getD_cons_zero, slotIds] using
        List.sublist_append_left (s.map fun e => e.id) (slotIds rest)
    | succ k =>
      simpa only [List.getD_cons_succ, slotIds] using
        (ih k).trans (List.sublist_append_right _ _)

/-- Helper: when the scan of cancelTimer finds a match in a slot with
pairwise distinct ids, the slot's ids are the removed id put back in front
of the remaining ids, up to permutation. -/
theorem eraseFirst_ids_perm (id rot : Nat) :
    ∀ vec : List TimerEntry,
      (vec.map (fun e => e.id)).Nodup →
      vec.any (fun e => e.id = id ∧ e.rotation = rot) = true →
      List.Perm (vec.map (fun e => e.id))
        (id :: (eraseFirst vec id rot).map (fun e => e.id)) := by
  intro vec
  induction vec with
  | nil => intro _ h; simp at h
  | cons e rest ih =>
    intro hnd hany
    by_cases he : e.id = id ∧ e.rotation = rot
    · rw [show eraseFirst (e :: rest) id rot = rest by
        simp [eraseFirst, he]]
      rw [List.map_cons, he.1]
    · rw [show eraseFirst (e :: rest) id rot = e :: eraseFirst rest id rot by
        simp [eraseFirst, he]]
      have hrest : rest.any (fun x => x.id = id ∧ x.rotation = rot) = true := by
        rcases List.any_eq_true.mp hany with ⟨x, hx, hxp⟩
        rcases List.mem_cons.mp hx with hxe | hxr
        · exact absurd (of_decide_eq_true (hxe ▸ hxp)) he
        · exact List.any_eq_true.mpr ⟨x, hxr, hxp⟩
      have hnd2 : (rest.map (fun e => e.id)).Nodup :=
        (List.nodup_cons.mp (by simpa using hnd)).2
      have := ih hnd2 hrest
      exact (List.Perm.cons _ this).trans (List.Perm.swap _ _ _)

/-- Helper: inserting a key no registry record has appends the new record. -/
theorem mapInsert_fresh (m : List (Nat × IdMeta)) (k : Nat) (v : IdMeta)
    (h : ∀ p ∈ m, ¬ p.1 = k) : mapInsert m k v = m ++ [(k, v)] := by
  unfold mapInsert
  rw [if_neg]
  intro hc
  rcases List.any_eq_true.mp hc with ⟨p, hp, hpk⟩
  exact h p hp (of_decide_eq_true hpk)

/-- Helper: a successful registry lookup is membership. -/
theorem findMeta_mem :
    ∀ (m : List (Nat × IdMeta)) (id : Nat) (v : IdMeta),
      findMeta m id = some v → (id, v) ∈ m := by
  intro m
  induction m with
  | nil => intro id v h; simp [findMeta] at h
  | cons p rest ih =>
    intro id v h
    obtain ⟨k, u⟩ := p
    by_cases hk : k = id
    · rw [show findMeta ((k, u) :: rest) id = some u by
        simp [findMeta, hk]] at h
      cases h
      subst hk
      exact List.mem_cons_self _ _
    · rw [show findMeta ((k, u) :: rest) id = findMeta rest id by
        simp [findMeta, hk]] at h
      exact List.mem_cons_of_mem _ (ih id v h)

/-- Helper: filtering the registry by a predicate on keys filters the key
list. -/
theorem keyList_filter (f : Nat → Bool) :
    ∀ m : List (Nat × IdMeta),
      keyList (m.filter (fun q => f q.1)) = (keyList m).filter f := by
  intro m
  induction m with
  | nil => rfl
  | cons q rest ih =>
    by_cases h : f q.1 = true
    · simp [keyList, List.filter_cons, h] at ih ⊢
      exact ih
    · simp [keyList, List.filter_cons, h] at ih ⊢
      exact ih

/-- Helper: ids are unchanged by the in-place rotation decrement. -/
theorem map_id_decrement (l : List TimerEntry) :
    ((l.map (fun e => (⟨e.id, e.rotation - 1, e.cb⟩ : TimerEntry))).map
        (fun e => e.id))
      = l.map (fun e => e.id) := by
  rw [List.map_map]
  rfl

/-- Helper: a freshly constructed wheel has no entries in any slot. -/
theorem slotIds_replicate :
    ∀ n, slotIds (List.replicate n ([] : List TimerEntry)) = [] := by
  intro n
  induction n with
  | zero => rfl
  | succ k ih => simpa [List.replicate_succ, slotIds] using ih

/-- The state invariant of the wheel: a valid configuration, a current slot
in range, a positive id counter, pairwise distinct registry keys, the ids
present in the slots a permutation of the registry keys, and every registry
record naming an in-range slot and an id below the counter. -/
structure WheelInv (w : TimeWheel) : Prop where
  ht : 0 < w.tick_ms
  hs : 0 < w.wheel_size
  hlen : w.slots.length = w.wheel_size
  hcur : w.current_slot < w.wheel_size
  hnid : 0 < w.next_id
  hkeys : (keyList w.id_map).Nodup
  hperm : List.Perm (slotIds w.slots) (keyList w.id_map)
  hmeta : ∀ p ∈ w.id_map,
    p.2.slot < w.wheel_size ∧ 0 < p.1 ∧ p.1 < w.next_id

/-- Helper: the constructor establishes the invariant. -/
theorem inv_base (t s : Nat) (ht : 0 < t) (hs : 0 < s) :
    WheelInv (mkTimeWheel t s) := by
  refine ⟨ht, hs, ?_, hs, Nat.one_pos, List.nodup_nil, ?_, ?_⟩
  · simp [mkTimeWheel]
  · show List.Perm (slotIds (List.replicate s [])) (keyList [])
    rw [slotIds_replicate]
    exact List.Perm.refl _
  · intro p hp
    simp [mkTimeWheel] at hp

/-- Helper: inserting a fresh entry (id = next_id) into an in-range slot and
the registry preserves the invariant; this is the locked insertion step of
addTimer for an arbitrary computed slot and rotation. -/
theorem inv_insert (w : TimeWheel) (hi : WheelInv w) (slot rot c : Nat)
    (hslot : slot < w.wheel_size) :
    WheelInv { w with
      slots := w.slots.set slot
        (w.slots.getD slot [] ++ [⟨w.next_id, rot, c⟩])
      id_map := mapInsert w.id_map w.next_id ⟨slot, rot⟩
      next_id := w.next_id + 1 } := by
  have hfresh : ∀ p ∈ w.id_map, ¬ p.1 = w.next_id := by
    intro p hp h
    have := (hi.hmeta p hp).2.2
    omega
  have hins : mapInsert w.id_map w.next_id ⟨slot, rot⟩
      = w.id_map ++ [(w.next_id, ⟨slot, rot⟩)] :=
    mapInsert_fresh _ _ _ hfresh
  have hnotin : w.next_id ∉ keyList w.id_map := by
    intro hmem
    rcases List.mem_map.mp hmem with ⟨p, hp, hpk⟩
    exact hfresh p hp hpk
  have hlt : slot < w.slots.length := by rw [hi.hlen]; exact hslot
  have hex := slotIds_set_perm w.slots slot
    (w.slots.getD slot [] ++ [⟨w.next_id, rot, c⟩]) hlt
  rw [List.map_append] at hex
  have hstep : List.Perm
      (slotIds w.slots ++ ((w.slots.getD slot []).map (fun e => e.id)
        ++ [(⟨w.next_id, rot, c⟩ : TimerEntry)].map (fun e => e.id)))
      ((slotIds w.slots ++ [w.next_id])
        ++ (w.slots.getD slot []).map (fun e => e.id)) := by
    refine (List.Perm.append_left _ List.perm_append_comm).trans ?_
    rw [List.append_assoc]
    exact List.Perm.refl _
  have hX : List.Perm
      (slotIds (w.slots.set slot
        (w.slots.getD slot [] ++ [⟨w.next_id, rot, c⟩])))
      (slotIds w.slots ++ [w.next_id]) :=
    (List.perm_append_right_iff _).mp (hex.trans hstep)
  refine ⟨hi.ht, hi.hs, ?_, hi.hcur, Nat.succ_pos _, ?_, ?_, ?_⟩
  · simpa [List.length_set] using hi.hlen
  · show (keyList (mapInsert w.id_map w.next_id ⟨slot, rot⟩)).Nodup
    rw [hins]
    show ((w.id_map ++ [((w.next_id, ⟨slot, rot⟩) : Nat × IdMeta)]).map
      Prod.fst).Nodup
    rw [List.map_append]
    refine List.Nodup.append hi.hkeys ?_ ?_
    · simp
    · intro a ha hb
      simp at hb
      exact hnotin (hb ▸ ha)
  · show List.Perm _ (keyList (mapInsert w.id_map w.next_id ⟨slot, rot⟩))
    rw [hins]
    show List.Perm _ ((w.id_map ++ [((w.next_id, ⟨slot, rot⟩) : Nat × IdMeta)]).map
      Prod.fst)
    rw [List.map_append]
    exact hX.trans (List.Perm.append_right _ hi.hperm)
  · intro p hp
    rw [hins] at hp
    rcases List.mem_append.mp hp with hold | hnew
    · have := hi.hmeta p hold
      refine ⟨this.1, this.2.1, ?_⟩
      show p.1 < w.next_id + 1
      omega
    · have : p = (w.next_id, ⟨slot, rot⟩) := by simpa using hnew
      subst this
      refine ⟨hslot, hi.hnid, ?_⟩
      show w.next_id < w.next_id + 1
      omega

/-- Helper: addTimer preserves the invariant. -/
theorem inv_add (w : TimeWheel) (d : Nat) (cb : Option Nat) (hi : WheelInv w) :
    WheelInv (w.addTimer d cb).1 := by
  cases cb with
  | none => exact hi
  | some c =>
    exact inv_insert w hi _ _ c (Nat.mod_lt _ hi.hs)

/-- Helper: erasing a key from the registry filters the key list. -/
theorem keyList_mapErase (m : List (Nat × IdMeta)) (k : Nat) :
    keyList (mapErase m k) = (keyList m).filter (fun x => ¬ k = x) := by
  induction m with
  | nil => rfl
  | cons q rest ih =>
    by_cases h : k = q.1
    · have e1 : mapErase (q :: rest) k = mapErase rest k := by
        simp [mapErase, List.filter_cons, h]
      have e2 : (keyList (q :: rest)).filter (fun x => ¬ k = x)
          = (keyList rest).filter (fun x => ¬ k = x) := by
        simp [keyList, List.filter_cons, h]
      rw [e1, e2]
      exact ih
    · have e1 : mapErase (q :: rest) k = q :: mapErase rest k := by
        simp [mapErase, List.filter_cons, h]
      have e2 : (keyList (q :: rest)).filter (fun x => ¬ k = x)
          = q.1 :: (keyList rest).filter (fun x => ¬ k = x) := by
        simp [keyList, List.filter_cons, h]
      rw [e1, e2]
      show q.1 :: keyList (mapErase rest k) = _
      rw [ih]

/-- Helper: the registry filter done by a tick filters the key list. -/
theorem keyList_filter_all (fired : List TimerEntry)
    (m : List (Nat × IdMeta)) :
    keyList (m.filter (fun p => fired.all (fun e => ¬ e.id = p.1)))
      = (keyList m).filter (fun x => fired.all (fun e => ¬ e.id = x)) := by
  induction m with
  | nil => rfl
  | cons q rest ih =>
    by_cases h : ∀ x ∈ fired, ¬ x.id = q.1
    · have e1 : (q :: rest).filter (fun p => fired.all (fun e => ¬ e.id = p.1))
          = q :: rest.filter (fun p => fired.all (fun e => ¬ e.id = p.1)) := by
        simp only [List.filter_cons]
        simp
        exact h
      have e2 : (keyList (q :: rest)).filter
            (fun x => fired.all (fun e => ¬ e.id = x))
          = q.1 :: (keyList rest).filter
              (fun x => fired.all (fun e => ¬ e.id = x)) := by
        simp only [keyList, List.map_cons, List.filter_cons]
        simp
        exact h
      rw [e1, e2]
      show q.1 :: keyList (rest.filter _) = _
      rw [ih]
    · have e1 : (q :: rest).filter (fun p => fired.all (fun e => ¬ e.id = p.1))
          = rest.filter (fun p => fired.all (fun e => ¬ e.id = p.1)) := by
        simp [List.filter_cons, h]
      have e2 : (keyList (q :: rest)).filter
            (fun x => fired.all (fun e => ¬ e.id = x))
          = (keyList rest).filter
              (fun x => fired.all (fun e => ¬ e.id = x)) := by
        simp [keyList, List.filter_cons, h]
      rw [e1, e2]
      exact ih

/-- Helper: the locked removal step of cancelTimer (registry record found and
slot scan matched) preserves the invariant. -/
theorem inv_remove (w : TimeWheel) (hi : WheelInv w) (id : Nat)
    (meta : IdMeta) (hmem : (id, meta) ∈ w.id_map)
    (hany : (w.slots.getD meta.slot []).any
      (fun e => e.id = id ∧ e.rotation = meta.rotation) = true) :
    WheelInv { w with
      slots := w.slots.set meta.slot
        (eraseFirst (w.slots.getD meta.slot []) id meta.rotation)
      id_map := mapErase w.id_map id } := by
  have hslot : meta.slot < w.wheel_size := (hi.hmeta _ hmem).1
  have hlt : meta.slot < w.slots.length := by rw [hi.hlen]; exact hslot
  have hSnodup : (slotIds w.slots).Nodup :=
    (hi.hperm.nodup_iff).mpr hi.hkeys
  have hvnodup : ((w.slots.getD meta.slot []).map (fun e => e.id)).Nodup :=
    (getD_map_sublist w.slots meta.slot).nodup hSnodup
  have hvperm := eraseFirst_ids_perm id meta.rotation
    (w.slots.getD meta.slot []) hvnodup hany
  have hex := slotIds_set_perm w.slots meta.slot
    (eraseFirst (w.slots.getD meta.slot []) id meta.rotation) hlt
  have step1 : List.Perm
      ((slotIds (w.slots.set meta.slot
          (eraseFirst (w.slots.getD meta.slot []) id meta.rotation))
        ++ [id])
        ++ (eraseFirst (w.slots.getD meta.slot []) id meta.rotation).map
            (fun e => e.id))
      (slotIds w.slots
        ++ (eraseFirst (w.slots.getD meta.slot []) id meta.rotation).map
            (fun e => e.id)) := by
    rw [List.append_assoc]
    exact (List.Perm.append_left _ hvperm.symm).trans hex
  have hXid : List.Perm
      (slotIds (w.slots.set meta.slot
          (eraseFirst (w.slots.getD meta.slot []) id meta.rotation))
        ++ [id])
      (slotIds w.slots) :=
    (List.perm_append_right_iff _).mp step1
  have hXidnodup : (slotIds (w.slots.set meta.slot
      (eraseFirst (w.slots.getD meta.slot []) id meta.rotation))
      ++ [id]).Nodup :=
    hXid.symm.nodup hSnodup
  have hidX : id ∉ slotIds (w.slots.set meta.slot
      (eraseFirst (w.slots.getD meta.slot []) id meta.rotation)) := by
    have hd := List.disjoint_of_nodup_append hXidnodup
    intro hmem'
    exact hd hmem' (List.mem_singleton.mpr rfl)
  have hKX : List.Perm (keyList w.id_map)
      (slotIds (w.slots.set meta.slot
          (eraseFirst (w.slots.getD meta.slot []) id meta.rotation))
        ++ [id]) :=
    hi.hperm.symm.trans hXid.symm
  have hfil := hKX.filter (fun x => ¬ id = x)
  rw [List.filter_append] at hfil
  have h1 : (slotIds (w.slots.set meta.slot
      (eraseFirst (w.slots.getD meta.slot []) id meta.rotation))).filter
        (fun x => ¬ id = x)
      = slotIds (w.slots.set meta.slot
          (eraseFirst (w.slots.getD meta.slot []) id meta.rotation)) := by
    rw [List.filter_eq_self]
    intro a ha
    simp only [decide_eq_true_eq]
    intro he
    have hae : a = id := he.symm
    subst hae
    exact hidX ha
  have h2 : ([id] : List Nat).filter (fun x => ¬ id = x) = [] := by simp
  rw [h1, h2, List.append_nil] at hfil
  refine ⟨hi.ht, hi.hs, ?_, hi.hcur, hi.hnid, ?_, ?_, ?_⟩
  · show (w.slots.set meta.slot _).length = w.wheel_size
    rw [List.length_set]
    exact hi.hlen
  · show (keyList (mapErase w.id_map id)).Nodup
    rw [keyList_mapErase]
    exact (List.filter_sublist _).nodup hi.hkeys
  · show List.Perm _ (keyList (mapErase w.id_map id))
    rw [keyList_mapErase]
    exact hfil.symm
  · intro p hp
    have hp' : p ∈ w.id_map := (List.mem_filter.mp hp).1
    exact hi.hmeta p hp'

/-- Helper: cancelTimer preserves the invariant. -/
theorem inv_cancel (w : TimeWheel) (id : Nat) (hi : WheelInv w) :
    WheelInv (w.cancelTimer id).1 := by
  by_cases h0 : id = 0
  · simpa [TimeWheel.cancelTimer, h0] using hi
  · cases hfind : findMeta w.id_map id with
    | none => simpa [TimeWheel.cancelTimer, h0, hfind] using hi
    | some meta =>
      by_cases hany : (w.slots.getD meta.slot []).any
          (fun e => e.id = id ∧ e.rotation = meta.rotation) = true
      · have hgoal : (w.cancelTimer id).1
            = { w with
                slots := w.slots.set meta.slot
                  (eraseFirst (w.slots.getD meta.slot []) id meta.rotation)
                id_map := mapErase w.id_map id } := by
          unfold TimeWheel.cancelTimer
          rw [if_neg h0]
          simp only [hfind]
          rw [if_pos hany]
        rw [hgoal]
        exact inv_remove w hi id meta (findMeta_mem _ _ _ hfind) hany
      · have hgoal : (w.cancelTimer id).1 = w := by
          unfold TimeWheel.cancelTimer
          rw [if_neg h0]
          simp only [hfind]
          rw [if_neg hany]
        rw [hgoal]
        exact hi

/-- Helper: tick preserves the invariant. -/
theorem inv_tick (w : TimeWheel) (hi : WheelInv w) : WheelInv (w.tick).1 := by
  have hcurlt : w.current_slot < w.slots.length := by
    rw [hi.hlen]; exact hi.hcur
  have hSnodup : (slotIds w.slots).Nodup := (hi.hperm.nodup_iff).mpr hi.hkeys
  have hk := processBucket_fst (w.slots.getD w.current_slot [])
  have hf := processBucket_snd (w.slots.getD w.current_slot [])
  have hKI : (processBucket (w.slots.getD w.current_slot [])).1.map
        (fun e => e.id)
      = ((w.slots.getD w.current_slot []).filter
          (fun e => ¬ e.rotation = 0)).map (fun e => e.id) := by
    rw [hk]
    exact map_id_decrement _
  have hF : (processBucket (w.slots.getD w.current_slot [])).2.map
        (fun e => e.id)
      = ((w.slots.getD w.current_slot []).filter
          (fun e => e.rotation = 0)).map (fun e => e.id) := by
    rw [hf]
  have hpart : List.Perm
      ((processBucket (w.slots.getD w.current_slot [])).2.map (fun e => e.id)
        ++ (processBucket (w.slots.getD w.current_slot [])).1.map
            (fun e => e.id))
      ((w.slots.getD w.current_slot []).map (fun e => e.id)) := by
    rw [hF, hKI]
    have hfp := (List.filter_append_perm (fun e => e.rotation = 0)
      (w.slots.getD w.current_slot [])).map (fun e => e.id)
    rw [List.map_append] at hfp
    simp only [decide_not]
    exact hfp
  have hex := slotIds_set_perm w.slots w.current_slot
    (processBucket (w.slots.getD w.current_slot [])).1 hcurlt
  have step : List.Perm
      ((slotIds (w.slots.set w.current_slot
          (processBucket (w.slots.getD w.current_slot [])).1)
        ++ (processBucket (w.slots.getD w.current_slot [])).2.map
            (fun e => e.id))
        ++ (processBucket (w.slots.getD w.current_slot [])).1.map
            (fun e => e.id))
      (slotIds w.slots
        ++ (processBucket (w.slots.getD w.current_slot [])).1.map
            (fun e => e.id)) := by
    rw [List.append_assoc]
    exact (List.Perm.append_left _ hpart).trans hex
  have hXF : List.Perm
      (slotIds (w.slots.set w.current_slot
          (processBucket (w.slots.getD w.current_slot [])).1)
        ++ (processBucket (w.slots.getD w.current_slot [])).2.map
            (fun e => e.id))
      (slotIds w.slots) :=
    (List.perm_append_right_iff _).mp step
  have hKperm : List.Perm (keyList w.id_map)
      (slotIds (w.slots.set w.current_slot
          (processBucket (w.slots.getD w.current_slot [])).1)
        ++ (processBucket (w.slots.getD w.current_slot [])).2.map
            (fun e => e.id)) :=
    hi.hperm.symm.trans hXF.symm
  have hXFnodup := hXF.symm.nodup hSnodup
  have hdisj := List.disjoint_of_nodup_append hXFnodup
  have hmap : (processBucket (w.slots.getD w.current_slot [])).2.foldl
        (fun m e => mapErase m e.id) w.id_map
      = w.id_map.filter (fun p =>
          (processBucket (w.slots.getD w.current_slot [])).2.all
            (fun e => ¬ e.id = p.1)) :=
    foldl_mapErase _ _
  have hfil := hKperm.filter (fun x =>
    (processBucket (w.slots.getD w.current_slot [])).2.all
      (fun e => ¬ e.id = x))
  rw [List.filter_append] at hfil
  have h1 : (slotIds (w.slots.set w.current_slot
        (processBucket (w.slots.getD w.current_slot [])).1)).filter
        (fun x => (processBucket (w.slots.getD w.current_slot [])).2.all
          (fun e => ¬ e.id = x))
      = slotIds (w.slots.set w.current_slot
          (processBucket (w.slots.getD w.current_slot [])).1) := by
    rw [List.filter_eq_self]
    intro a ha
    rw [List.all_eq_true]
    intro e he
    simp only [decide_eq_true_eq]
    intro hea
    exact hdisj ha (List.mem_map.mpr ⟨e, he, hea⟩)
  have h2 : ((processBucket (w.slots.getD w.current_slot [])).2.map
        (fun e => e.id)).filter
        (fun x => (processBucket (w.slots.getD w.current_slot [])).2.all
          (fun e => ¬ e.id = x))
      = [] := by
    rw [List.filter_eq_nil_iff]
    intro a ha hg
    rcases List.mem_map.mp ha with ⟨e, he, hea⟩
    rw [List.all_eq_true] at hg
    have := hg e he
    simp only [decide_eq_true_eq] at this
    exact this hea
  rw [h1, h2, List.append_nil] at hfil
  refine ⟨hi.ht, hi.hs, ?_, ?_, hi.hnid, ?_, ?_, ?_⟩
  · show (w.slots.set w.current_slot _).length = w.wheel_size
    rw [List.length_set]
    exact hi.hlen
  · show (w.current_slot + 1) % w.wheel_size < w.wheel_size
    exact Nat.mod_lt _ hi.hs
  · show (keyList ((processBucket (w.slots.getD w.current_slot [])).2.foldl
      (fun m e => mapErase m e.id) w.id_map)).Nodup
    rw [hmap, keyList_filter_all]
    exact (List.filter_sublist _).nodup hi.hkeys
  · show List.Perm _ (keyList
      ((processBucket (w.slots.getD w.current_slot [])).2.foldl
        (fun m e => mapErase m e.id) w.id_map))
    rw [hmap, keyList_filter_all]
    exact hfil.symm
  · intro p hp
    have hp2 : p ∈ (processBucket (w.slots.getD w.current_slot [])).2.foldl
        (fun m e => mapErase m e.id) w.id_map := hp
    rw [hmap] at hp2
    exact hi.hmeta p (List.mem_filter.mp hp2).1

/-- The states the TimeWheel of src/dispatch/test.hpp can be in: a freshly
constructed wheel (with a positive tick duration and slot count, as the
defaults 100 and 512 are), followed by any interleaving of addTimer,
cancelTimer and tick steps. -/
inductive Reachable : TimeWheel → Prop where
  | base (t s : Nat) (ht : 0 < t) (hs : 0 < s) : Reachable (mkTimeWheel t s)
  | add (w : TimeWheel) (d : Nat) (cb : Option Nat) :
      Reachable w → Reachable (w.addTimer d cb).1
  | cancel (w : TimeWheel) (id : Nat) :
      Reachable w → Reachable (w.cancelTimer id).1
  | tickStep (w : TimeWheel) : Reachable w → Reachable (w.tick).1

/-- Helper: every reachable wheel state satisfies the invariant. -/
theorem reachable_inv (w : TimeWheel) (h : Reachable w) : WheelInv w := by
  induction h with
  | base t s ht hs => exact inv_base t s ht hs
  | add w d cb _ ih => exact inv_add w d cb ih
  | cancel w id _ ih => exact inv_cancel w id ih
  | tickStep w _ ih => exact inv_tick w ih

/-- Claim C4: at every state reachable by any interleaving of addTimer,
cancelTimer and tick (each operation runs under the single wheel lock, so
the reachable states are exactly the interleavings of these atomic steps),
the number of live registry records in id_map_ equals the total number of
TimerEntry objects physically present across all slots. -/
theorem C4_registry_count_equals_slot_count (w : TimeWheel)
    (hw : Reachable w) :
    (w.slots.map List.length).sum = w.id_map.length := by
  have hi := reachable_inv w hw
  have h1 := slotIds_length w.slots
  have h2 := hi.hperm.length_eq
  have h3 : (keyList w.id_map).length = w.id_map.length := by
    simp [keyList]
  omega

/-- Claim C4, witness: the equality evaluated on the concrete reachable state
reached by one addTimer, one failed cancel and one tick from a fresh
TimeWheel(100, 4). -/
theorem C4_registry_count_equals_slot_count_witness :
    ((((((mkTimeWheel 100 4).addTimer 250
          (some 9)).1.cancelTimer 3).1.tick).1.slots.map List.length).sum
      = ((((mkTimeWheel 100 4).addTimer 250
          (some 9)).1.cancelTimer 3).1.tick).1.id_map.length) :=
  C4_registry_count_equals_slot_count _
    (Reachable.tickStep _ (Reachable.cancel _ 3 (Reachable.add _ 250 (some 9)
      (Reachable.base 100 4 (by decide) (by decide)))))

/-- Claim C9: on every reachable wheel, addTimer with a null callback
schedules nothing and returns the reserved id 0; cancelTimer(0) always
returns false and changes nothing; and a real timer is never given id 0
(next_id_ starts at 1 and only grows), so a returned id of 0 always means
no timer exists. -/
theorem C9_null_callback_returns_reserved_id_zero (w : TimeWheel)
    (hw : Reachable w) :
    (∀ d, w.addTimer d none = (w, 0)) ∧
    w.cancelTimer 0 = (w, false) ∧
    (∀ d c, ¬ (w.addTimer d (some c)).2 = 0) := by
  refine ⟨fun d => rfl, ?_, ?_⟩
  · simp [TimeWheel.cancelTimer]
  · intro d c
    have hi := reachable_inv w hw
    have h1 := hi.hnid
    show ¬ w.next_id = 0
    omega

/-- Claim C9, witness: the three properties evaluated on the concrete
reachable state TimeWheel(100, 4). -/
theorem C9_null_callback_returns_reserved_id_zero_witness :
    (mkTimeWheel 100 4).addTimer 5 none = (mkTimeWheel 100 4, 0) ∧
    (mkTimeWheel 100 4).cancelTimer 0 = (mkTimeWheel 100 4, false) ∧
    ¬ ((mkTimeWheel 100 4).addTimer 5 (some 2)).2 = 0 := by
  have h := C9_null_callback_returns_reserved_id_zero (mkTimeWheel 100 4)
    (Reachable.base 100 4 (by decide) (by decide))
  exact ⟨h.1 5, h.2.1, h.2.2 5 2⟩
